import Mathlib

/-!
# Verification of the `tfile` header-only file library

Shallow embedding of `tfile` (files `include/tfile/tfile.h` and the older
root revision `tfile.h`).  Byte streams are modelled as `List Char`
(C `char` sequences); a reader handle is the list of bytes remaining at the
current file position, so `fread(buf, 1, n, fp)` yields `remaining.take n`
and leaves `remaining.drop n`.  The filesystem is an association list from
path strings to file contents, with the most recent binding shadowing older
ones.
-/

/-- `newlineString<Newline::cr_lf>()` = `"\r\n"` (tfile.h line 485). -/
def crlfNewline : List Char := ['\r', '\n']

/-- `newlineString<Newline::lf>()` = `"\n"` (tfile.h line 486). -/
def lfNewline : List Char := ['\n']

/-- The loop body of `LineReader::readOne` (include/tfile/tfile.h lines
337-371).  Arguments: the newline string, the bytes remaining in the
reader, the accumulated `line`, the `seen` counter (how many characters of
`newline` have been matched), and the `empty` flag.  Returns the final
`line`, the boolean result of `readOne`, and the bytes left in the reader.
`newline.getD seen (Char.ofNat 0)` models the C expression
`newline[seen]`, whose value at index `newline.length` is the NUL
terminator of the C string; `line ++ newline.take seen` models the
`emitPartial` lambda. -/
def readOneAux (newline : List Char) :
    List Char → List Char → Nat → Bool → List Char × Bool × List Char
  | [], line, seen, empty => (line ++ newline.take seen, !empty, [])
  | ch :: rest, line, seen, _ =>
    if ch = newline.getD seen (Char.ofNat 0) then
      (if seen + 1 ≥ newline.length then (line, true, rest)
       else readOneAux newline rest line (seen + 1) false)
    else
      readOneAux newline rest (line ++ newline.take seen ++ [ch]) 0 false

/-- `LineReader::readOne(std::string& line)`: the caller's string `line`
is first cleared (`line.resize(0)`, modelled by `line.take 0`), then the
scanning loop runs with `seen = 0` and `empty = true`. -/
def readOne (newline : List Char) (line : List Char) (input : List Char) :
    List Char × Bool × List Char :=
  readOneAux newline input (line.take 0) 0 true

/-- Fuelled version of the loop `while (readOne(s)) lines.push_back(s)`
used by `LineReader::forEach` / `fill` / `read`.  Each successful
`readOne` consumes at least one byte, so any fuel above `input.length`
computes the loop exactly (`readLinesAux_fuel`). -/
def readLinesAux (newline : List Char) : Nat → List Char → List (List Char)
  | 0, _ => []
  | fuel + 1, input =>
    let r := readOne newline [] input
    if r.2.1 then r.1 :: readLinesAux newline fuel r.2.2 else []

/-- All lines of `input` under the newline policy `newline`, as produced
by repeatedly calling `LineReader::readOne` until it returns false. -/
def readLines (newline : List Char) (input : List Char) : List (List Char) :=
  readLinesAux newline (input.length + 1) input

/-- The line-scanning state machine for the Windows (`"\r\n"`) policy,
written directly from its intended description: `pending` records whether
the previous byte was an unresolved `'\r'`; a `'\n'` while pending ends
the line; any other byte while pending flushes the pending `'\r'` and is
then itself appended literally (no new terminator match is started on it);
while not pending, `'\r'` becomes pending and every other byte (including
a bare `'\n'`) is literal; at end-of-stream a pending `'\r'` is appended
to the line and the line is successful iff any byte was read
(`started`). -/
def winLineSpec : List Char → Bool → Bool → List Char → List Char × Bool × List Char
  | line, pending, started, [] =>
    (line ++ (if pending then ['\r'] else []), started, [])
  | line, pending, _, c :: rest =>
    if pending then
      (if c = '\n' then (line, true, rest)
       else winLineSpec (line ++ ['\r', c]) false true rest)
    else
      (if c = '\r' then winLineSpec line true true rest
       else winLineSpec (line ++ [c]) false true rest)

/-- `BUFFER_SIZE` in `testableRead` (include/tfile/tfile.h line 529). -/
def BUFFER_SIZE : Nat := 16

/-- `std::string::resize(n)`: truncate to `n` characters, or pad on the
right with NUL characters up to length `n`. -/
def resizeStr (s : List Char) (n : Nat) : List Char :=
  s.take n ++ List.replicate (n - s.length) (Char.ofNat 0)

/-- `fread(&dest[0], 1, dest.size(), fp)` on a reader whose remaining
bytes are `src`: the first `min dest.length src.length` characters of
`dest` are overwritten with bytes from `src`; returns the new buffer and
the byte count transferred. -/
def freadInto (dest : List Char) (src : List Char) : List Char × Nat :=
  let r := min dest.length src.length
  (src.take r ++ dest.drop r, r)

/-- The drain loop of `testableRead` (include/tfile/tfile.h lines
528-535), with explicit fuel: read up to `BUFFER_SIZE` bytes; if the
count is zero, stop; otherwise append them (`s.insert(s.end(), ...)`) and
repeat.  Each pass consumes at least one byte, so fuel
`remaining.length + 1` is never exhausted (`drainFuel_eq_self`). -/
def drainFuel : Nat → List Char → List Char
  | 0, _ => []
  | fuel + 1, remaining =>
    let bytes := min BUFFER_SIZE remaining.length
    if bytes = 0 then []
    else remaining.take bytes ++ drainFuel fuel (remaining.drop bytes)

/-- All bytes produced by the drain loop on a reader with `remaining`
bytes left. -/
def drain (remaining : List Char) : List Char :=
  drainFuel (remaining.length + 1) remaining

/-- `tfile::testableRead(filename, s, size)` where the caller's string
holds `prior`, the opened file holds `contents`, and the supplied size
function returned `measured`: resize `s` to `measured`, read into it and
trim to the count actually read, then drain the rest of the file in
`BUFFER_SIZE` chunks. -/
def testableRead (prior contents : List Char) (measured : Nat) : List Char :=
  let s0 := resizeStr prior measured
  let fr := freadInto s0 contents
  let s1 := resizeStr fr.1 fr.2
  s1 ++ drain (contents.drop fr.2)

/-- Filesystem: paths mapped to file contents; the head binding
shadows older ones. -/
abbrev FS : Type := List (String × List Char)

/-- The state of a path after a write: the binding placed at the head. -/
def setFile (fs : FS) (p : String) (c : List Char) : FS :=
  (p, c) :: fs

/-- `fopen(path, "r")`: succeeds with the file's bytes exactly when the
path exists (POSIX semantics of mode `"r"`; permissions and transient
I/O errors are outside the model). -/
def fopenRead (fs : FS) (p : String) : Option (List Char) :=
  fs.lookup p

/-- `tfile::Reader(filename)` (the `FileHandle` constructor,
include/tfile/tfile.h lines 282-289): `fopen` with mode `"r"`; when that
returns null, `throw std::runtime_error(filename)` - the error value
carries exactly the path. -/
def openReader (fs : FS) (p : String) : Except String (List Char) :=
  match fopenRead fs p with
  | some c => Except.ok c
  | none => Except.error p

/-- `tfile::Writer(filename)`: `fopen` with mode `"w"` creates the file
if missing and truncates it to empty (POSIX semantics of mode `"w"`), so
the constructor does not throw on a nonexistent path.  Returns the new
filesystem and the (empty) contents behind the handle. -/
def openWriter (fs : FS) (p : String) : Except String (FS × List Char) :=
  Except.ok (setFile fs p [], [])

/-- C `strlen`: scan until the first NUL byte. -/
def strlen : List Char → Nat
  | [] => 0
  | c :: rest => if c = Char.ofNat 0 then 0 else strlen rest + 1

/-- `fwrite(data, 1, length, fp)` through a write handle positioned at
the end of `fileContents`: the first `length` bytes of `data` are
appended; the return value is the byte count written. -/
def handleWriteN (fileContents data : List Char) (length : Nat) :
    List Char × Nat :=
  (fileContents ++ data.take length, (data.take length).length)

/-- The handle method `write(const char* data)` (include/tfile/tfile.h
lines 457-460 and root `tfile.h` lines 191-195):
`write(data, strlen(data))`. -/
def handleWriteCString (fileContents data : List Char) : List Char × Nat :=
  handleWriteN fileContents data (strlen data)

/-- The free function `write(filename, data, length)`
(include/tfile/tfile.h lines 551-554): `Writer(filename)` truncates the
file to empty, then one `fwrite` of `length` bytes. -/
def writeFile (fs : FS) (p : String) (data : List Char) (length : Nat) :
    FS × Nat :=
  let r := handleWriteN [] data length
  (setFile fs p r.1, r.2)

/-- The free function `write(filename, data)` on a null-terminated
string (include/tfile/tfile.h lines 556-559):
`write(filename, data, strlen(data))`. -/
def writeFileCString (fs : FS) (p : String) (data : List Char) : FS × Nat :=
  writeFile fs p data (strlen data)

/-- `tfile::size(filename)` on an existing file: seek-to-end probe
returning the byte length (include/tfile/tfile.h lines 581-586). -/
def sizeFS (fs : FS) (p : String) : Nat :=
  ((fs.lookup p).getD []).length

/-- The free function `read(filename)` (include/tfile/tfile.h lines
538-549): a fresh string, then `testableRead(filename, s, size)`; the
`Reader` constructor inside throws the path when the file does not
exist. -/
def readWholeFile (fs : FS) (p : String) : Except String (List Char) :=
  match fs.lookup p with
  | some c => Except.ok (testableRead [] c (sizeFS fs p))
  | none => Except.error p

/-- Read/write capability of a handle type, fixed at compile time. -/
structure Caps where
  canRead : Bool
  canWrite : Bool
deriving DecidableEq

/-- The six open modes (include/tfile/tfile.h line 107). -/
inductive FMode
  | read | readWrite | write | truncate | append | readAppend
deriving DecidableEq

/-- Capabilities granted by `Traits<MODE>::Base`
(include/tfile/tfile.h lines 476-481): `Read = FileHandle<ReaderBase>`,
`Write = FileHandle<WriterBase>`, `ReadWrite = FileHandle<ReaderBase,
WriterBase>`. -/
def traitsCaps : FMode → Caps
  | .read => ⟨true, false⟩
  | .readWrite => ⟨true, true⟩
  | .write => ⟨false, true⟩
  | .truncate => ⟨true, true⟩
  | .append => ⟨false, true⟩
  | .readAppend => ⟨true, true⟩

/-- Capabilities of the factory functions of the root revision
`tfile.h` (lines 114-119): each returns `Handle<CAN_READ, CAN_WRITE>`
and the `enable_if` guards expose exactly the methods those two booleans
allow.  `appender` (lines 232-240) returns `Handle<true, true>`. -/
def oldHandleCaps (canR canW : Bool) : Caps := ⟨canR, canW⟩

/-- `tfile::appender`'s declared return type in the root `tfile.h`:
`Handle<true, true>`. -/
def oldAppenderCaps : Caps := oldHandleCaps true true

/-- A `FileHandle` (include/tfile/tfile.h lines 150-189): owns an
optional `FILE*`, modelled by an optional descriptor number; `none` is
the null/empty state. -/
structure FileHandleM where
  file : Option Nat
deriving DecidableEq

/-- `FileHandle::close` (include/tfile/tfile.h lines 291-299): if the
handle owns a descriptor, `fclose` it and null the member; otherwise do
nothing.  Returns the new handle state together with the list of
descriptors this call released. -/
def FileHandleM.close (h : FileHandleM) : FileHandleM × List Nat :=
  match h.file with
  | some f => (⟨none⟩, [f])
  | none => (⟨none⟩, [])

/-- `~FileHandle() { close(); }`: the descriptors released on
destruction. -/
def FileHandleM.destroy (h : FileHandleM) : List Nat :=
  h.close.2

/-- `FileHandle::release`: hand the descriptor to the caller and keep
nothing. -/
def FileHandleM.release (h : FileHandleM) : FileHandleM × Option Nat :=
  (⟨none⟩, h.file)

/-- `Opener`'s move constructor (include/tfile/tfile.h line 507):
`Opener(Opener&& other) : Base(other.release())`.  Returns the new
handle followed by the moved-from handle. -/
def openerMove (h : FileHandleM) : FileHandleM × FileHandleM :=
  (⟨h.file⟩, (h.release).1)

/-- A default-constructed `FileHandle` (`FileHandle(FILE* file =
nullptr)`). -/
def defaultFileHandle : FileHandleM := ⟨none⟩

/-- A `Handle` of the root revision `tfile.h` (lines 126-209): the
constructor throws on open failure, so a live handle always holds a
non-null `FILE*`; there is no `close()` method and no null state. -/
structure OldHandleM where
  file : Nat
deriving DecidableEq

/-- `~Handle() { fclose(file_); }` (root `tfile.h` lines 139-141):
`fclose` is called unconditionally on whatever pointer the handle
holds. -/
def OldHandleM.destroy (h : OldHandleM) : List Nat :=
  [h.file]

/-- `Handle(Handle&&) = default` (root `tfile.h` line 136): the default
move constructor copies the raw `FILE*` member, leaving the moved-from
handle with the same pointer.  Returns the new handle followed by the
moved-from handle. -/
def oldHandleMove (h : OldHandleM) : OldHandleM × OldHandleM :=
  (⟨h.file⟩, ⟨h.file⟩)

/-- The reader never grows: the bytes left after `readOneAux` are no
more than the input. -/
theorem readOneAux_rest_length (newline : List Char) :
    ∀ (input line : List Char) (seen : Nat) (empty : Bool),
      (readOneAux newline input line seen empty).2.2.length ≤ input.length := by
  intro input
  induction input with
  | nil => intro line seen empty; simp [readOneAux]
  | cons ch rest ih =>
    intro line seen empty
    simp only [readOneAux]
    split
    · split
      · simp
      · exact Nat.le_trans (ih _ _ _) (Nat.le_succ _)
    · exact Nat.le_trans (ih _ _ _) (Nat.le_succ _)

/-- Once a byte has been read (`empty = false`), `readOne`'s loop can
only return `true`. -/
theorem readOneAux_ok_of_read (newline : List Char) :
    ∀ (input line : List Char) (seen : Nat),
      (readOneAux newline input line seen false).2.1 = true := by
  intro input
  induction input with
  | nil => intro line seen; simp [readOneAux]
  | cons ch rest ih =>
    intro line seen
    simp only [readOneAux]
    split
    · split
      · rfl
      · exact ih _ _
    · exact ih _ _

/-- On a nonempty reader, `readOne` returns `true`. -/
theorem readOne_ok_of_ne_nil (newline line : List Char) :
    ∀ (input : List Char), input ≠ [] →
      (readOne newline line input).2.1 = true := by
  intro input hne
  cases input with
  | nil => exact absurd rfl hne
  | cons ch rest =>
    simp only [readOne, readOneAux]
    split
    · split
      · rfl
      · exact readOneAux_ok_of_read _ _ _ _
    · exact readOneAux_ok_of_read _ _ _ _

/-- A successful `readOne` consumes at least one byte. -/
theorem readOne_rest_lt (newline prior : List Char) :
    ∀ input : List Char, input ≠ [] →
      (readOne newline prior input).2.2.length < input.length := by
  intro input hne
  cases input with
  | nil => exact absurd rfl hne
  | cons ch rest =>
    simp only [readOne, readOneAux]
    split
    · split
      · exact Nat.lt_succ_self _
      · exact Nat.lt_succ_of_le (readOneAux_rest_length newline rest _ _ _)
    · exact Nat.lt_succ_of_le (readOneAux_rest_length newline rest _ _ _)

/-- Any fuel above the input length computes the read-all-lines loop
exactly: the fuelled recursion never hits zero. -/
theorem readLinesAux_fuel (newline : List Char) :
    ∀ (f g : Nat) (input : List Char), input.length < f → input.length < g →
      readLinesAux newline f input = readLinesAux newline g input := by
  intro f
  induction f with
  | zero => intro g input hf _; exact absurd hf (Nat.not_lt_zero _)
  | succ f ih =>
    intro g input hf hg
    cases g with
    | zero => exact absurd hg (Nat.not_lt_zero _)
    | succ g =>
      simp only [readLinesAux]
      by_cases hok : (readOne newline [] input).2.1 = true
      · have hne : input ≠ [] := by
          intro h
          subst h
          simp [readOne, readOneAux] at hok
        have hlt := readOne_rest_lt newline [] input hne
        simp only [hok, if_true]
        rw [ih g ((readOne newline [] input).2.2) (by omega) (by omega)]
      · simp [hok]

/-- `readOne` under the `"\r\n"` policy is exactly the `winLineSpec`
state machine: `seen = 0` corresponds to no pending `'\r'`, `seen = 1`
to a pending one, and `empty` is the negation of `started`. -/
theorem readOneAux_crlf_eq_winLineSpec :
    ∀ (input line : List Char) (seen : Nat) (empty : Bool),
      seen = 0 ∨ seen = 1 →
      readOneAux crlfNewline input line seen empty =
        winLineSpec line (seen == 1) (!empty) input := by
  intro input
  induction input with
  | nil =>
    intro line seen empty hseen
    rcases hseen with h | h <;> subst h <;>
      simp [readOneAux, winLineSpec, crlfNewline]
  | cons ch rest ih =>
    intro line seen empty hseen
    rcases hseen with h | h <;> subst h
    · rw [readOneAux, winLineSpec]
      by_cases hc : ch = '\r'
      · subst hc
        have h1 := ih line 1 false (Or.inr rfl)
        simp only [crlfNewline] at h1
        simp [crlfNewline, h1]
      · have h1 := ih (line ++ [ch]) 0 false (Or.inl rfl)
        simp only [crlfNewline] at h1
        simp [crlfNewline, hc, h1]
    · rw [readOneAux, winLineSpec]
      by_cases hc : ch = '\n'
      · subst hc
        simp [crlfNewline]
      · have h1 := ih (line ++ ['\r', ch]) 0 false (Or.inl rfl)
        simp only [crlfNewline] at h1
        simp [crlfNewline, hc, h1]

/-- With enough fuel the drain loop returns exactly the remaining
bytes. -/
theorem drainFuel_eq_self :
    ∀ (fuel : Nat) (remaining : List Char), remaining.length < fuel →
      drainFuel fuel remaining = remaining := by
  intro fuel
  induction fuel with
  | zero => intro remaining h; exact absurd h (Nat.not_lt_zero _)
  | succ n ih =>
    intro remaining h
    rw [drainFuel]
    by_cases hb : min BUFFER_SIZE remaining.length = 0
    · have : remaining.length = 0 := by
        rcases Nat.min_eq_zero_iff.mp hb with h16 | hlen
        · exact absurd h16 (by decide)
        · exact hlen
      simp [hb, List.eq_nil_of_length_eq_zero this]
    · have hpos : 0 < remaining.length :=
        Nat.pos_of_ne_zero fun h0 => hb (by simp [h0])
      have hdrop : (remaining.drop (min BUFFER_SIZE remaining.length)).length < n := by
        have h1 : (remaining.drop (min BUFFER_SIZE remaining.length)).length
            = remaining.length - min BUFFER_SIZE remaining.length := by simp
        have h2 : remaining.length - min BUFFER_SIZE remaining.length
            < remaining.length :=
          Nat.sub_lt hpos (Nat.pos_of_ne_zero hb)
        omega
      simp only [if_neg hb]
      rw [ih _ hdrop, List.take_append_drop]

/-- The drain loop returns exactly the bytes remaining in the reader. -/
theorem drain_eq_self (remaining : List Char) : drain remaining = remaining :=
  drainFuel_eq_self _ _ (Nat.lt_succ_self _)

/-- `resizeStr` really produces a string of the requested length. -/
theorem resizeStr_length (s : List Char) (n : Nat) :
    (resizeStr s n).length = n := by
  simp [resizeStr]
  omega

/-- Resizing to a length the string already reaches is truncation. -/
theorem resizeStr_of_le (s : List Char) (n : Nat) (h : n ≤ s.length) :
    resizeStr s n = s.take n := by
  simp [resizeStr, Nat.sub_eq_zero_of_le h]

/-- `testableRead` returns exactly the file's contents, whatever the
measured size and whatever the caller's string held before the call. -/
theorem testableRead_eq_contents (prior contents : List Char) (measured : Nat) :
    testableRead prior contents measured = contents := by
  have hs0 : (resizeStr prior measured).length = measured := resizeStr_length _ _
  simp only [testableRead, freadInto, hs0]
  set r := min measured contents.length with hr
  have hrle : r ≤ contents.length := Nat.min_le_right _ _
  have hrm : r ≤ measured := Nat.min_le_left _ _
  have htake : (contents.take r).length = r := by simp [hrle]
  have hlen : (contents.take r ++ (resizeStr prior measured).drop r).length
      = measured := by
    simp [htake, hs0]
    omega
  have hcat : ((contents.take r ++ (resizeStr prior measured).drop r).take r)
      = contents.take r := by
    rw [List.take_append_eq_append_take, htake, Nat.sub_self, List.take_zero,
      List.append_nil, List.take_take, Nat.min_self]
  rw [resizeStr_of_le _ _ (by rw [hlen]; exact hrm), hcat, drain_eq_self,
    List.take_append_drop]

/-- `strlen` stops strictly before the first NUL byte. -/
theorem take_strlen_eq_takeWhile :
    ∀ data : List Char, data.take (strlen data) =
      data.takeWhile (fun c => c != Char.ofNat 0) := by
  intro data
  induction data with
  | nil => rfl
  | cons c rest ih =>
    by_cases hc : c = Char.ofNat 0
    · subst hc
      simp [strlen]
    · simp [strlen, hc, ih]

/-- C1: for every byte sequence `B` and path `p`, `write(p, B)` followed
by `read(p)` returns exactly `B` (round-trip identity); the model is
sequential, so no concurrent modification occurs. -/
theorem c1_write_read_roundtrip (fs : FS) (p : String) (B : List Char) :
    readWholeFile (writeFile fs p B B.length).1 p = Except.ok B := by
  simp only [writeFile, handleWriteN, setFile, List.take_length, readWholeFile,
    sizeFS, List.nil_append]
  simp [List.lookup, testableRead_eq_contents]

/-- C2, counterexample: under the Windows policy the input `"a\nb"`
is consumed as the single line `"a\nb"`; the bare `'\n'` does not
terminate a line, contradicting the claim, which demands the first line
be `"a"`. -/
theorem c2_counterexample :
    (readOne crlfNewline [] ['a', '\n', 'b']).1 = ['a', '\n', 'b'] ∧
      ¬ (readOne crlfNewline [] ['a', '\n', 'b']).1 = ['a'] := by
  decide

/-- C2, amended: under the Windows (`"\r\n"`) policy, `readOne` behaves
as the `winLineSpec` machine: a line is terminated only by a `'\n'`
arriving while a `'\r'` is pending; a bare `'\n'` is a literal character
of the line; a lone `'\r'` not immediately followed by `'\n'` is kept as
a literal character (and the byte after it is also taken literally,
without starting a new terminator match); a `'\r'` that is the very last
byte before end-of-stream is appended to the final line as a literal
`'\r'`, and the final line is successful iff any byte was read. -/
theorem c2_amended_readOne_crlf (prior input : List Char) :
    readOne crlfNewline prior input = winLineSpec [] false false input := by
  have h := readOneAux_crlf_eq_winLineSpec input (prior.take 0) 0 true (Or.inl rfl)
  simpa [readOne] using h

/-- C3: the whole-file read first reads as many bytes as the measured
size, then drains the reader in `BUFFER_SIZE`-byte chunks until a
zero-length read; whatever the measured size (larger or smaller than the
actual contents), the result is exactly the bytes present - trimmed to
the bytes actually read, never padded. -/
theorem c3_testableRead_exact (prior contents : List Char) (measured : Nat) :
    testableRead prior contents measured = contents :=
  testableRead_eq_contents prior contents measured

/-- C4: evaluation at the divergence.  In the root revision `tfile.h`,
`appender` returns `Handle<true, true>`, whose read side is enabled -
contradicting the mode table (`Append: read no, write yes`), the file's
own comment `a: write-only`, and the later revision, whose
`Traits<Mode::append>::Base` is the write-only `FileHandle<WriterBase>`. -/
theorem c4_append_capability_divergence :
    oldAppenderCaps.canRead = true ∧
      (traitsCaps FMode.append).canRead = false ∧
      (traitsCaps FMode.append).canWrite = true := by
  decide

/-- C5: evaluation at the divergence.  In the newer revision, closing an
already-closed `FileHandle` releases nothing further; but in the root
revision `tfile.h`, `Handle`'s defaulted move constructor copies the raw
`FILE*`, and both the moved-to and the moved-from handle run an
unconditional `fclose` in their destructors, so descriptor 7 is released
twice - not exactly once as the claim requires. -/
theorem c5_double_close_divergence :
    (FileHandleM.close (FileHandleM.close ⟨some 7⟩).1).2 = [] ∧
      (oldHandleMove ⟨7⟩).1.destroy ++ (oldHandleMove ⟨7⟩).2.destroy = [7, 7] := by
  decide

/-- C6: splitting `"line1\nl\rine2\r\nline3"` yields exactly
`["line1", "l\rine2\r", "line3"]` under the Unix policy and exactly
`["line1\nl\rine2", "line3"]` under the Windows policy. -/
theorem c6_line_splitting :
    readLines lfNewline "line1\nl\rine2\r\nline3".toList =
        ["line1".toList, "l\rine2\r".toList, "line3".toList] ∧
      readLines crlfNewline "line1\nl\rine2\r\nline3".toList =
        ["line1\nl\rine2".toList, "line3".toList] := by
  decide

/-- C7: for every newline policy and input stream, `readOne` returns
false exactly when the reader is already at end-of-stream with nothing
pending; whenever any byte at all remains (including a pending partial
terminator), the accumulated bytes are returned as a successful line. -/
theorem c7_readOne_false_iff_no_bytes (newline prior input : List Char) :
    (readOne newline prior input).2.1 = false ↔ input = [] := by
  constructor
  · intro h
    by_contra hne
    rw [readOne_ok_of_ne_nil newline prior input hne] at h
    exact absurd h (by decide)
  · intro h
    subst h
    simp [readOne, readOneAux]

/-- C8: opening a nonexistent path in Read mode throws an error whose
value is exactly the path, while opening the same path in Write mode
succeeds and creates the (empty) file. -/
theorem c8_open_nonexistent (fs : FS) (p : String) (h : fs.lookup p = none) :
    openReader fs p = Except.error p ∧
      openWriter fs p = Except.ok (setFile fs p [], []) ∧
      (setFile fs p []).lookup p = some [] := by
  refine ⟨?_, rfl, ?_⟩
  · simp [openReader, fopenRead, h]
  · simp [setFile, List.lookup]

/-- C8 witness: the empty filesystem does not contain "missing.txt". -/
theorem c8_witness :
    ([] : FS).lookup "missing.txt" = none ∧
      (openReader [] "missing.txt" = Except.error "missing.txt" ∧
        openWriter ([] : FS) "missing.txt"
            = Except.ok (setFile [] "missing.txt" [], []) ∧
        (setFile ([] : FS) "missing.txt" []).lookup "missing.txt" = some []) :=
  ⟨rfl, c8_open_nonexistent [] "missing.txt" rfl⟩

/-- C9: `readOne` clears its output string argument before reading, so
for fixed stream contents the produced line (and everything else it
returns) is identical whatever the caller's string held before the
call. -/
theorem c9_readOne_independent_of_prior (newline p1 p2 input : List Char) :
    readOne newline p1 input = readOne newline p2 input := by
  simp [readOne]

/-- C10: the null-terminated write overloads (free `write(filename,
data)` and the handle method `write(data)`) write exactly the bytes
strictly before the first NUL byte of `data` - bytes at or after an
embedded NUL are never written, on the file contents, in the reported
count, and in the filesystem after the free function. -/
theorem c10_null_terminated_writes (fs : FS) (p : String)
    (fileContents data : List Char) :
    (handleWriteCString fileContents data).1 =
        fileContents ++ data.takeWhile (fun c => c != Char.ofNat 0) ∧
      (handleWriteCString fileContents data).2 =
        (data.takeWhile (fun c => c != Char.ofNat 0)).length ∧
      (writeFileCString fs p data).1.lookup p =
        some (data.takeWhile (fun c => c != Char.ofNat 0)) := by
  refine ⟨?_, ?_, ?_⟩
  · simp [handleWriteCString, handleWriteN, take_strlen_eq_takeWhile]
  · simp [handleWriteCString, handleWriteN, take_strlen_eq_takeWhile]
  · simp [writeFileCString, writeFile, handleWriteN, setFile, List.lookup,
      take_strlen_eq_takeWhile]
